import Mathlib

/-!
Shallow embedding of the suggested-changes engine of
src/services/web/frontend/js/features/ide-react/context/suggested-changes-context.tsx
(the patch-list provider: SuggestedChange, mergeOverlappingChanges,
mergedSuggestedChanges, modifiedDocument, addSuggestedChange, acceptChange,
rejectChange) together with the thin wrappers of
src/services/web/frontend/js/features/ide-react/api/editor-api.ts.

Documents are modelled as lists of characters; positions are integers, as in
JavaScript, and String.prototype.slice is modelled with its clamping
semantics.  JavaScript Array.prototype.sort with a numeric comparator is a
stable sort, modelled by List.insertionSort (which is stable).
-/

/-- Status field of a suggested change (suggested-changes-context.tsx line 18). -/
inductive ChangeStatus where
  | pending
  | accepted
  | rejected
deriving DecidableEq, Repr

/-- The SuggestedChange record (suggested-changes-context.tsx lines 11-19). -/
structure SuggestedChange where
  id : String
  «from» : Int
  «to» : Int
  originalText : List Char
  suggestedText : List Char
  timestamp : Nat
  status : ChangeStatus
deriving DecidableEq, Repr

/-- Resolution of one slice index, JavaScript semantics: a negative index
counts from the end (clamped below by 0), a non-negative one is clamped
above by the length. -/
def jsIndex (len : Nat) (i : Int) : Nat :=
  if i < 0 then ((len : Int) + i).toNat else min i.toNat len

/-- String.prototype.slice with two arguments, on a character list. -/
def jsSlice (s : List Char) (a b : Int) : List Char :=
  (s.take (jsIndex s.length b)).drop (jsIndex s.length a)

/-- String.prototype.slice with one argument (up to the end of the string). -/
def jsSliceFrom (s : List Char) (a : Int) : List Char :=
  s.drop (jsIndex s.length a)

/-- Embeds generateId (suggested-changes-context.tsx lines 61-63).  The id is
built from Date.now() and a random base-36 fragment; both are modelled as
explicit inputs since they are environment-supplied, not content-derived. -/
def generateId (nowMs : Nat) (randPart : String) : String :=
  "change_" ++ toString nowMs ++ "_" ++ randPart

/-- State owned by the provider: the stored change list and the original
(baseline) document (suggested-changes-context.tsx lines 55-58). -/
structure ProviderState where
  suggestedChanges : List SuggestedChange
  originalDocument : List Char
deriving DecidableEq, Repr

/-- Ascending stable sort by the from position, the comparator
(a, b) => a.from - b.from of line 71. -/
def sortByFromAsc (changes : List SuggestedChange) : List SuggestedChange :=
  List.insertionSort (fun a b => a.«from» ≤ b.«from») changes

/-- Descending stable sort by the from position, the comparator
(a, b) => b.from - a.from of line 167. -/
def sortByFromDesc (changes : List SuggestedChange) : List SuggestedChange :=
  List.insertionSort (fun a b => b.«from» ≤ a.«from») changes

/-- One merge step of mergeOverlappingChanges (lines 84-127): coalesces the
running accumulator (last) with an overlapping current change. -/
def mergeTwo (doc : List Char) (last current : SuggestedChange) : SuggestedChange :=
  let mergedFrom := min last.«from» current.«from»
  let mergedTo := max last.«to» current.«to»
  let originalText := jsSlice doc mergedFrom mergedTo
  let mergedSuggestedText :=
    if last.«from» = current.«from» ∧ last.«to» = current.«to» then
      current.suggestedText
    else if current.«from» ≥ last.«from» ∧ current.«to» ≤ last.«to» then
      last.suggestedText
    else if last.«from» ≥ current.«from» ∧ last.«to» ≤ current.«to» then
      current.suggestedText
    else
      jsSlice doc mergedFrom (min last.«from» current.«from») ++
        current.suggestedText ++
        jsSlice doc (max last.«to» current.«to») mergedTo
  { id := "merged_" ++ last.id ++ "_" ++ current.id
    «from» := mergedFrom
    «to» := mergedTo
    originalText := originalText
    suggestedText := mergedSuggestedText
    timestamp := max last.timestamp current.timestamp
    status := ChangeStatus.pending }

/-- The left-to-right pass of mergeOverlappingChanges (lines 74-135): last is
the final element of the merged array, the list built so far is emitted in
front of the recursion. -/
def mergeRun (doc : List Char) (last : SuggestedChange) :
    List SuggestedChange → List SuggestedChange
  | [] => [last]
  | current :: rest =>
    if current.«from» ≤ last.«to» then
      mergeRun doc (mergeTwo doc last current) rest
    else
      last :: mergeRun doc current rest

/-- Embeds mergeOverlappingChanges (suggested-changes-context.tsx lines
66-140): lists of length at most one are returned as-is, otherwise the list
is stable-sorted by from and overlapping neighbours are coalesced. -/
def mergeOverlappingChanges (doc : List Char) (changes : List SuggestedChange) :
    List SuggestedChange :=
  if changes.length ≤ 1 then changes
  else
    match sortByFromAsc changes with
    | [] => []
    | c :: rest => mergeRun doc c rest

/-- Embeds the mergedSuggestedChanges memo (lines 143-159): merge of the
pending subset of the stored changes, against the original document. -/
def mergedSuggestedChanges (st : ProviderState) : List SuggestedChange :=
  mergeOverlappingChanges st.originalDocument
    (st.suggestedChanges.filter fun c => c.status == ChangeStatus.pending)

/-- The application loop of the modifiedDocument memo (lines 166-176):
changes sorted descending by from, each spliced into the running result. -/
def applyChanges (doc : List Char) (changes : List SuggestedChange) : List Char :=
  (sortByFromDesc changes).foldl
    (fun result change =>
      jsSlice result 0 change.«from» ++ change.suggestedText ++
        jsSliceFrom result change.«to»)
    doc

/-- Embeds the modifiedDocument memo (lines 162-177): the raw (pre-merge)
pending changes applied to the original document. -/
def modifiedDocument (st : ProviderState) : List Char :=
  applyChanges st.originalDocument
    (st.suggestedChanges.filter fun c => c.status == ChangeStatus.pending)

/-- Embeds addSuggestedChange (lines 180-199); the generated id and the
Date.now() timestamp are passed in explicitly. -/
def addSuggestedChange (newId : String) (now : Nat) (posFrom posTo : Int)
    (text : List Char) (st : ProviderState) : ProviderState :=
  let originalText := jsSlice st.originalDocument posFrom posTo
  { st with
    suggestedChanges := st.suggestedChanges ++
      [{ id := newId
         «from» := posFrom
         «to» := posTo
         originalText := originalText
         suggestedText := text
         timestamp := now
         status := ChangeStatus.pending }] }

/-- The length difference of an accepted change
(suggested-changes-context.tsx line 208). -/
def lengthDiffOf (change : SuggestedChange) : Int :=
  (change.suggestedText.length : Int) - (change.«to» - change.«from»)

/-- Position adjustment applied to the surviving changes by acceptChange
(lines 212-221): changes starting after the accepted range are shifted. -/
def shiftAfter (change : SuggestedChange) (c : SuggestedChange) : SuggestedChange :=
  if change.«to» < c.«from» then
    { c with «from» := c.«from» + lengthDiffOf change, «to» := c.«to» + lengthDiffOf change }
  else c

/-- Embeds acceptChange (suggested-changes-context.tsx lines 202-223): look
the change up by id; on a miss return the state unchanged; on a hit drop it
and shift the later changes.  The original document is not touched. -/
def acceptChange (changeId : String) (st : ProviderState) : ProviderState :=
  match st.suggestedChanges.find? (fun c => c.id == changeId) with
  | none => st
  | some change =>
    { st with
      suggestedChanges :=
        (st.suggestedChanges.filter fun c => c.id != changeId).map
          (shiftAfter change) }

/-- Embeds rejectChange (lines 226-228): drop the change by id. -/
def rejectChange (changeId : String) (st : ProviderState) : ProviderState :=
  { st with suggestedChanges := st.suggestedChanges.filter fun c => c.id != changeId }

/-- Embeds the acceptChange wrapper of editor-api.ts (lines 415-428) in the
context-present case: the wrapped call never throws, so the wrapper always
reports success. -/
def editorApiAcceptChange (changeId : String) (st : ProviderState) :
    Bool × ProviderState :=
  (true, acceptChange changeId st)

/-- Embeds the rejectChange wrapper of editor-api.ts (lines 430-443) in the
context-present case. -/
def editorApiRejectChange (changeId : String) (st : ProviderState) :
    Bool × ProviderState :=
  (true, rejectChange changeId st)

theorem jsSlice_self (s : List Char) (a : Int) : jsSlice s a a = [] := by
  apply List.drop_eq_nil_of_le
  simp [jsSlice]

/-- Claim C8: merging an empty change list returns the empty list, and
merging a single-element change list returns that single change as-is,
keeping its id. -/
theorem claim_C8_edge_cases (doc : List Char) (c : SuggestedChange) :
    mergeOverlappingChanges doc [] = [] ∧ mergeOverlappingChanges doc [c] = [c] :=
  ⟨rfl, rfl⟩

/-- Claim C3, counterexample: an accept or revert call with an id absent from
the change list signals no error at all.  At this concrete state the
editor-api wrappers report success (true) and the state is unchanged, so no
typed not-found error reaches the caller. -/
theorem claim_C3_counterexample :
    editorApiAcceptChange "zzz"
        ⟨[⟨"a", 0, 5, ("Hello").toList, ("Hi").toList, 0, ChangeStatus.pending⟩],
          ("Hello world").toList⟩ =
      (true,
        ⟨[⟨"a", 0, 5, ("Hello").toList, ("Hi").toList, 0, ChangeStatus.pending⟩],
          ("Hello world").toList⟩) ∧
    editorApiRejectChange "zzz"
        ⟨[⟨"a", 0, 5, ("Hello").toList, ("Hi").toList, 0, ChangeStatus.pending⟩],
          ("Hello world").toList⟩ =
      (true,
        ⟨[⟨"a", 0, 5, ("Hello").toList, ("Hi").toList, 0, ChangeStatus.pending⟩],
          ("Hello world").toList⟩) := by
  decide

/-- Claim C3, amended: an accept or revert call whose id is absent from the
change list is silently ignored: the context operations return the state
unchanged (baseline document included) and the editor-api wrappers report
success; no error is signalled. -/
theorem claim_C3_miss_silent (st : ProviderState) (changeId : String)
    (habs : ∀ c ∈ st.suggestedChanges, c.id ≠ changeId) :
    acceptChange changeId st = st ∧ rejectChange changeId st = st ∧
    editorApiAcceptChange changeId st = (true, st) ∧
    editorApiRejectChange changeId st = (true, st) := by
  have hfind : st.suggestedChanges.find? (fun c => c.id == changeId) = none := by
    rw [List.find?_eq_none]
    intro x hx
    simpa using habs x hx
  have hacc : acceptChange changeId st = st := by
    unfold acceptChange
    rw [hfind]
  have hfil : st.suggestedChanges.filter (fun c => c.id != changeId) =
      st.suggestedChanges := by
    rw [List.filter_eq_self]
    intro a ha
    simpa using habs a ha
  have hrej : rejectChange changeId st = st := by
    unfold rejectChange
    rw [hfil]
  exact ⟨hacc, hrej, by simp [editorApiAcceptChange, hacc],
    by simp [editorApiRejectChange, hrej]⟩

theorem claim_C3_miss_silent_witness :
    (∀ c ∈ (ProviderState.mk
        [⟨"a", 0, 5, ("Hello").toList, ("Hi").toList, 0, ChangeStatus.pending⟩]
        (("Hello world").toList)).suggestedChanges, c.id ≠ "zzz") ∧
    acceptChange "zzz"
        (ProviderState.mk
          [⟨"a", 0, 5, ("Hello").toList, ("Hi").toList, 0, ChangeStatus.pending⟩]
          (("Hello world").toList)) =
      ProviderState.mk
        [⟨"a", 0, 5, ("Hello").toList, ("Hi").toList, 0, ChangeStatus.pending⟩]
        (("Hello world").toList) :=
  ⟨by decide,
    (claim_C3_miss_silent
      (ProviderState.mk
        [⟨"a", 0, 5, ("Hello").toList, ("Hi").toList, 0, ChangeStatus.pending⟩]
        (("Hello world").toList)) "zzz" (by decide)).1⟩

/-- Claim C5: for a state whose change list holds exactly one span, reverting
that span followed by recomputation yields an empty published span list and a
working text equal to the baseline. -/
theorem claim_C5_revert_roundtrip (st : ProviderState) (s : SuggestedChange)
    (hone : st.suggestedChanges = [s]) (_hpend : s.status = ChangeStatus.pending) :
    mergedSuggestedChanges (rejectChange s.id st) = [] ∧
    modifiedDocument (rejectChange s.id st) = st.originalDocument := by
  have h : rejectChange s.id st = ProviderState.mk [] st.originalDocument := by
    simp [rejectChange, hone]
  rw [h]
  exact ⟨rfl, rfl⟩

theorem claim_C5_revert_roundtrip_witness :
    mergedSuggestedChanges
        (rejectChange "s1"
          (ProviderState.mk
            [⟨"s1", 0, 5, ("Hello").toList, ("Hi").toList, 0, ChangeStatus.pending⟩]
            (("Hello world").toList))) = [] ∧
    modifiedDocument
        (rejectChange "s1"
          (ProviderState.mk
            [⟨"s1", 0, 5, ("Hello").toList, ("Hi").toList, 0, ChangeStatus.pending⟩]
            (("Hello world").toList))) = ("Hello world").toList :=
  claim_C5_revert_roundtrip
    (ProviderState.mk
      [⟨"s1", 0, 5, ("Hello").toList, ("Hi").toList, 0, ChangeStatus.pending⟩]
      (("Hello world").toList))
    ⟨"s1", 0, 5, ("Hello").toList, ("Hi").toList, 0, ChangeStatus.pending⟩
    rfl rfl

/-- Claim C2: evaluation of acceptChange at a concrete state.  The baseline
document is left unchanged by accept (it does not become baseline prefix plus
suggested text plus baseline suffix, as the accept contract requires), and in
the presence of a second pending change the position shift corrupts the
working document. -/
theorem claim_C2_bug_eval :
    (acceptChange "s1"
        (ProviderState.mk
          [⟨"s1", 0, 5, ("Hello").toList, ("Hi").toList, 0, ChangeStatus.pending⟩]
          (("Hello world").toList))).originalDocument = ("Hello world").toList ∧
    ("Hello world").toList ≠ ("Hi world").toList ∧
    modifiedDocument
        (acceptChange "s1"
          (ProviderState.mk
            [⟨"s1", 0, 5, ("Hello").toList, ("Hi").toList, 0, ChangeStatus.pending⟩]
            (("Hello world").toList))) = ("Hello world").toList ∧
    modifiedDocument
        (acceptChange "s1"
          (ProviderState.mk
            [⟨"s1", 0, 5, ("Hello").toList, ("Hi").toList, 0, ChangeStatus.pending⟩,
             ⟨"c1", 6, 11, ("world").toList, ("universe").toList, 1,
               ChangeStatus.pending⟩]
            (("Hello world").toList))) = ("Heluniverserld").toList := by
  decide

/-- Claim C6: two pending changes separated by a non-empty gap of unchanged
text are never coalesced by the merge: whichever order they are stored in,
both remain separate entries of the published merged list. -/
theorem claim_C6_gap_no_merge (doc : List Char) (c₁ c₂ : SuggestedChange)
    (hp₁ : c₁.status = ChangeStatus.pending) (hp₂ : c₂.status = ChangeStatus.pending)
    (hwf₁ : c₁.«from» ≤ c₁.«to») (_hwf₂ : c₂.«from» ≤ c₂.«to»)
    (hgap : c₁.«to» < c₂.«from») :
    mergedSuggestedChanges (ProviderState.mk [c₁, c₂] doc) = [c₁, c₂] ∧
    mergedSuggestedChanges (ProviderState.mk [c₂, c₁] doc) = [c₁, c₂] := by
  have hle : c₁.«from» ≤ c₂.«from» := le_of_lt (lt_of_le_of_lt hwf₁ hgap)
  have hlt : ¬ c₂.«from» ≤ c₁.«from» := not_le.mpr (lt_of_le_of_lt hwf₁ hgap)
  have hnover : ¬ c₂.«from» ≤ c₁.«to» := not_le.mpr hgap
  constructor <;>
    simp [mergedSuggestedChanges, mergeOverlappingChanges, sortByFromAsc,
      List.insertionSort, List.orderedInsert, mergeRun, hp₁, hp₂, hle, hlt, hnover]

theorem claim_C6_gap_no_merge_witness :
    mergedSuggestedChanges
        (ProviderState.mk
          [⟨"a", 0, 5, ("Hello").toList, ("Howdy").toList, 0, ChangeStatus.pending⟩,
           ⟨"b", 6, 11, ("world").toList, ("there").toList, 1, ChangeStatus.pending⟩]
          (("Hello world, test").toList)) =
      [⟨"a", 0, 5, ("Hello").toList, ("Howdy").toList, 0, ChangeStatus.pending⟩,
       ⟨"b", 6, 11, ("world").toList, ("there").toList, 1, ChangeStatus.pending⟩] :=
  (claim_C6_gap_no_merge (("Hello world, test").toList)
    ⟨"a", 0, 5, ("Hello").toList, ("Howdy").toList, 0, ChangeStatus.pending⟩
    ⟨"b", 6, 11, ("world").toList, ("there").toList, 1, ChangeStatus.pending⟩
    rfl rfl (by decide) (by decide) (by decide)).1

/-- Claim C10: when the merge coalesces two partially overlapping changes
(neither range contains the other, ranges not identical), the merged
suggestedText is the later-sorted change's suggestedText alone, because the
beforeOverlap and afterOverlap slices are taken over empty ranges. -/
theorem claim_C10_partial_overlap (doc : List Char) (l c : SuggestedChange)
    (hsort : l.«from» ≤ c.«from») (hover : c.«from» ≤ l.«to»)
    (hne : ¬(l.«from» = c.«from» ∧ l.«to» = c.«to»))
    (hnc₁ : ¬(c.«from» ≥ l.«from» ∧ c.«to» ≤ l.«to»))
    (hnc₂ : ¬(l.«from» ≥ c.«from» ∧ l.«to» ≤ c.«to»)) :
    mergeOverlappingChanges doc [l, c] = [mergeTwo doc l c] ∧
    (mergeTwo doc l c).suggestedText = c.suggestedText := by
  constructor
  · simp [mergeOverlappingChanges, sortByFromAsc, List.insertionSort,
      List.orderedInsert, mergeRun, hsort, hover]
  · simp [mergeTwo, hne, hnc₁, hnc₂, jsSlice_self]

theorem claim_C10_partial_overlap_witness :
    (mergeTwo (("abcdef").toList)
        ⟨"a", 0, 4, ("abcd").toList, ("X").toList, 0, ChangeStatus.pending⟩
        ⟨"b", 2, 6, ("cdef").toList, ("Y").toList, 1, ChangeStatus.pending⟩).suggestedText =
      ("Y").toList :=
  (claim_C10_partial_overlap (("abcdef").toList)
    ⟨"a", 0, 4, ("abcd").toList, ("X").toList, 0, ChangeStatus.pending⟩
    ⟨"b", 2, 6, ("cdef").toList, ("Y").toList, 1, ChangeStatus.pending⟩
    (by decide) (by decide) (by decide) (by decide) (by decide)).2

/-- Claim C1, counterexample: applying the merged change list to the original
document does not always reconstruct the text obtained by applying the raw
pending change list; two partially overlapping changes give different
results (merging loses the earlier suggestion). -/
theorem claim_C1_counterexample :
    applyChanges (("abcdef").toList)
        (mergedSuggestedChanges
          (ProviderState.mk
            [⟨"a", 0, 4, ("abcd").toList, ("X").toList, 0, ChangeStatus.pending⟩,
             ⟨"b", 2, 6, ("cdef").toList, ("Y").toList, 1, ChangeStatus.pending⟩]
            (("abcdef").toList))) ≠
      modifiedDocument
        (ProviderState.mk
          [⟨"a", 0, 4, ("abcd").toList, ("X").toList, 0, ChangeStatus.pending⟩,
           ⟨"b", 2, 6, ("cdef").toList, ("Y").toList, 1, ChangeStatus.pending⟩]
          (("abcdef").toList)) := by
  decide

theorem mergeRun_separated (doc : List Char) :
    ∀ (rest : List SuggestedChange) (last : SuggestedChange),
      (∀ c ∈ rest, last.«to» < c.«from») →
      List.Pairwise (fun a b => a.«to» < b.«from») rest →
      mergeRun doc last rest = last :: rest := by
  intro rest
  induction rest with
  | nil =>
    intro last _ _
    rfl
  | cons current rest ih =>
    intro last hafter hpw
    have h1 : last.«to» < current.«from» := hafter current (by simp)
    rw [List.pairwise_cons] at hpw
    simp only [mergeRun, if_neg (not_le.mpr h1)]
    rw [ih current hpw.1 hpw.2]

theorem mergeOverlappingChanges_separated (doc : List Char)
    (changes : List SuggestedChange)
    (hwf : ∀ c ∈ changes, c.«from» ≤ c.«to»)
    (hsep : List.Pairwise (fun a b => a.«to» < b.«from») changes) :
    mergeOverlappingChanges doc changes = changes := by
  match changes with
  | [] => rfl
  | [c] => rfl
  | c :: d :: t =>
    have hsorted : List.Sorted (fun a b : SuggestedChange => a.«from» ≤ b.«from»)
        (c :: d :: t) :=
      hsep.imp_of_mem fun ha _hb hr => le_of_lt (lt_of_le_of_lt (hwf _ ha) hr)
    have hs : sortByFromAsc (c :: d :: t) = c :: d :: t := by
      unfold sortByFromAsc
      exact List.Sorted.insertionSort_eq hsorted
    rw [List.pairwise_cons] at hsep
    unfold mergeOverlappingChanges
    rw [if_neg (by simp)]
    rw [hs]
    exact mergeRun_separated doc (d :: t) c hsep.1 hsep.2

/-- Claim C1, amended: when the pending spans are position-sorted and
pairwise separated by non-empty gaps, merging returns the list unchanged, so
applying the merged list to the original document reconstructs exactly the
working text obtained from the raw pending list.  For overlapping spans the
merge can change the net effect (see the counterexample). -/
theorem claim_C1_sound_when_separated (st : ProviderState)
    (hwf : ∀ c ∈ st.suggestedChanges.filter (fun c => c.status == ChangeStatus.pending),
      c.«from» ≤ c.«to»)
    (hsep : List.Pairwise (fun a b => a.«to» < b.«from»)
      (st.suggestedChanges.filter (fun c => c.status == ChangeStatus.pending))) :
    mergedSuggestedChanges st =
      st.suggestedChanges.filter (fun c => c.status == ChangeStatus.pending) ∧
    applyChanges st.originalDocument (mergedSuggestedChanges st) =
      modifiedDocument st := by
  have h := mergeOverlappingChanges_separated st.originalDocument _ hwf hsep
  refine ⟨h, ?_⟩
  show applyChanges st.originalDocument (mergedSuggestedChanges st) = modifiedDocument st
  rw [show mergedSuggestedChanges st =
    st.suggestedChanges.filter (fun c => c.status == ChangeStatus.pending) from h]
  rfl

theorem claim_C1_sound_when_separated_witness :
    applyChanges (("Hello world, test").toList)
        (mergedSuggestedChanges
          (ProviderState.mk
            [⟨"a", 0, 5, ("Hello").toList, ("Howdy").toList, 0, ChangeStatus.pending⟩,
             ⟨"b", 6, 11, ("world").toList, ("there").toList, 1, ChangeStatus.pending⟩]
            (("Hello world, test").toList))) =
      modifiedDocument
        (ProviderState.mk
          [⟨"a", 0, 5, ("Hello").toList, ("Howdy").toList, 0, ChangeStatus.pending⟩,
           ⟨"b", 6, 11, ("world").toList, ("there").toList, 1, ChangeStatus.pending⟩]
          (("Hello world, test").toList)) :=
  (claim_C1_sound_when_separated
    (ProviderState.mk
      [⟨"a", 0, 5, ("Hello").toList, ("Howdy").toList, 0, ChangeStatus.pending⟩,
       ⟨"b", 6, 11, ("world").toList, ("there").toList, 1, ChangeStatus.pending⟩]
      (("Hello world, test").toList))
    (by decide) (by decide)).2

theorem find_id_of_nodup :
    ∀ (l : List SuggestedChange) (s : SuggestedChange),
      (l.map (fun c => c.id)).Nodup → s ∈ l →
      l.find? (fun c => c.id == s.id) = some s := by
  intro l
  induction l with
  | nil => intro s _ h; cases h
  | cons a t ih =>
    intro s hnd hmem
    rw [List.map_cons, List.nodup_cons] at hnd
    by_cases hid : a.id = s.id
    · have has : s = a := by
        rcases List.mem_cons.mp hmem with h | h
        · exact h
        · exact absurd (hid ▸ List.mem_map_of_mem (fun c => c.id) h) hnd.1
      subst has
      exact List.find?_cons_of_pos t (by simp)
    · have hst : s ∈ t := by
        rcases List.mem_cons.mp hmem with h | h
        · exact absurd (h ▸ rfl) hid
        · exact h
      rw [List.find?_cons_of_neg t (by simpa using hid)]
      exact ih s hnd.2 hst

theorem filter_ne_id_eq_erase :
    ∀ (l : List SuggestedChange) (s : SuggestedChange),
      (l.map (fun c => c.id)).Nodup → s ∈ l →
      l.filter (fun c => c.id != s.id) = l.erase s := by
  intro l
  induction l with
  | nil => intro s _ h; cases h
  | cons a t ih =>
    intro s hnd hmem
    rw [List.map_cons, List.nodup_cons] at hnd
    rcases List.mem_cons.mp hmem with rfl | hst
    · rw [List.erase_cons_head]
      rw [List.filter_cons_of_neg (by simp)]
      rw [List.filter_eq_self]
      intro c hc
      have : c.id ≠ s.id := fun h => hnd.1 (h ▸ List.mem_map_of_mem (fun c => c.id) hc)
      simpa using this
    · have hid : a.id ≠ s.id :=
        fun h => hnd.1 (h ▸ List.mem_map_of_mem (fun c => c.id) hst)
      have hne : a ≠ s := fun h => hid (h ▸ rfl)
      rw [List.filter_cons_of_pos (by simpa using hid)]
      rw [List.erase_cons_tail (by simpa using hne)]
      rw [ih s hnd.2 hst]

/-- Claim C9: when acceptChange finds the pending change s (ids being
unique), it mutates only the suggested-change list: s is removed, every
other change starting after s.to is shifted by the length difference of s,
every other change is untouched, no change with the id of s survives, and
the original (baseline) document string is not modified. -/
theorem claim_C9_accept_frame (st : ProviderState) (s : SuggestedChange)
    (hmem : s ∈ st.suggestedChanges)
    (hnd : (st.suggestedChanges.map (fun c => c.id)).Nodup) :
    (acceptChange s.id st).originalDocument = st.originalDocument ∧
    (acceptChange s.id st).suggestedChanges =
      (st.suggestedChanges.erase s).map (fun c =>
        if s.«to» < c.«from» then
          { c with «from» := c.«from» + lengthDiffOf s, «to» := c.«to» + lengthDiffOf s }
        else c) ∧
    ∀ c ∈ (acceptChange s.id st).suggestedChanges, c.id ≠ s.id := by
  have hfind := find_id_of_nodup st.suggestedChanges s hnd hmem
  have hfil := filter_ne_id_eq_erase st.suggestedChanges s hnd hmem
  have hacc : acceptChange s.id st =
      { st with suggestedChanges := (st.suggestedChanges.erase s).map (shiftAfter s) } := by
    unfold acceptChange
    rw [hfind, hfil]
  refine ⟨by rw [hacc], by rw [hacc]; rfl, ?_⟩
  intro c hc
  rw [hacc] at hc
  simp only [List.mem_map] at hc
  obtain ⟨d, hd, rfl⟩ := hc
  have hid : (shiftAfter s d).id = d.id := by
    unfold shiftAfter
    split <;> rfl
  rw [hid]
  have hperm := List.perm_cons_erase hmem
  have hnd2 : ((s :: st.suggestedChanges.erase s).map (fun c => c.id)).Nodup :=
    ((hperm.map (fun c => c.id)).nodup hnd)
  rw [List.map_cons, List.nodup_cons] at hnd2
  intro h
  exact hnd2.1 (h ▸ List.mem_map_of_mem (fun c => c.id) hd)

theorem claim_C9_accept_frame_witness :
    (acceptChange "s1"
        (ProviderState.mk
          [⟨"s1", 0, 5, ("Hello").toList, ("Hi").toList, 0, ChangeStatus.pending⟩,
           ⟨"c1", 6, 11, ("world").toList, ("universe").toList, 1, ChangeStatus.pending⟩]
          (("Hello world").toList))).originalDocument = ("Hello world").toList :=
  (claim_C9_accept_frame
    (ProviderState.mk
      [⟨"s1", 0, 5, ("Hello").toList, ("Hi").toList, 0, ChangeStatus.pending⟩,
       ⟨"c1", 6, 11, ("world").toList, ("universe").toList, 1, ChangeStatus.pending⟩]
      (("Hello world").toList))
    ⟨"s1", 0, 5, ("Hello").toList, ("Hi").toList, 0, ChangeStatus.pending⟩
    (by decide) (by decide)).1

/-- Claim C4, counterexample: id generation is not content-derived.  Adding
the same change (same document, positions, text) at two different times
yields different ids, because generateId is built from Date.now() and a
random fragment. -/
theorem claim_C4_counterexample :
    ((addSuggestedChange (generateId 1000 "abcdefghi") 1000 0 5 (("Hi").toList)
        (ProviderState.mk [] (("Hello world").toList))).suggestedChanges.map
      (fun c => c.id)) ≠
    ((addSuggestedChange (generateId 1001 "abcdefghi") 1001 0 5 (("Hi").toList)
        (ProviderState.mk [] (("Hello world").toList))).suggestedChanges.map
      (fun c => c.id)) := by
  decide

/-- Projection of a stored change to the fields that determine merge
decisions and merged ids: id, positions and status. -/
def changeKey (c : SuggestedChange) : String × Int × Int × ChangeStatus :=
  (c.id, c.«from», c.«to», c.status)

theorem changeKey_fields {a b : SuggestedChange} (h : changeKey a = changeKey b) :
    a.id = b.id ∧ a.«from» = b.«from» ∧ a.«to» = b.«to» ∧ a.status = b.status := by
  simpa [changeKey, Prod.ext_iff] using h

theorem forall₂_key_filter {l₁ l₂ : List SuggestedChange}
    (h : List.Forall₂ (fun a b => changeKey a = changeKey b) l₁ l₂) :
    List.Forall₂ (fun a b => changeKey a = changeKey b)
      (l₁.filter (fun c => c.status == ChangeStatus.pending))
      (l₂.filter (fun c => c.status == ChangeStatus.pending)) := by
  induction h with
  | nil => exact List.Forall₂.nil
  | cons hab htl ih =>
    obtain ⟨_, _, _, hst⟩ := changeKey_fields hab
    simp only [List.filter_cons, hst]
    split
    · exact List.Forall₂.cons hab ih
    · exact ih

theorem forall₂_key_orderedInsert {a b : SuggestedChange}
    {l₁ l₂ : List SuggestedChange} (hab : changeKey a = changeKey b)
    (h : List.Forall₂ (fun x y => changeKey x = changeKey y) l₁ l₂) :
    List.Forall₂ (fun x y => changeKey x = changeKey y)
      (List.orderedInsert (fun x y => x.«from» ≤ y.«from») a l₁)
      (List.orderedInsert (fun x y => x.«from» ≤ y.«from») b l₂) := by
  induction h with
  | nil => exact List.Forall₂.cons hab List.Forall₂.nil
  | cons hxy htl ih =>
    obtain ⟨_, hf, _, _⟩ := changeKey_fields hab
    obtain ⟨_, hxf, _, _⟩ := changeKey_fields hxy
    simp only [List.orderedInsert, hf, hxf]
    split
    · exact List.Forall₂.cons hab (List.Forall₂.cons hxy htl)
    · exact List.Forall₂.cons hxy ih

theorem forall₂_key_sort {l₁ l₂ : List SuggestedChange}
    (h : List.Forall₂ (fun a b => changeKey a = changeKey b) l₁ l₂) :
    List.Forall₂ (fun a b => changeKey a = changeKey b)
      (sortByFromAsc l₁) (sortByFromAsc l₂) := by
  induction h with
  | nil => exact List.Forall₂.nil
  | cons hab htl ih =>
    simp only [sortByFromAsc, List.insertionSort]
    exact forall₂_key_orderedInsert hab ih

theorem mergeTwo_key {doc₁ doc₂ : List Char} {l₁ l₂ c₁ c₂ : SuggestedChange}
    (hl : changeKey l₁ = changeKey l₂) (hc : changeKey c₁ = changeKey c₂) :
    changeKey (mergeTwo doc₁ l₁ c₁) = changeKey (mergeTwo doc₂ l₂ c₂) := by
  obtain ⟨hid, hf, ht, _⟩ := changeKey_fields hl
  obtain ⟨hid', hf', ht', _⟩ := changeKey_fields hc
  simp [changeKey, mergeTwo, hid, hf, ht, hid', hf', ht']

theorem forall₂_key_mergeRun {doc₁ doc₂ : List Char} :
    ∀ {rest₁ rest₂ : List SuggestedChange},
      List.Forall₂ (fun a b => changeKey a = changeKey b) rest₁ rest₂ →
      ∀ {last₁ last₂ : SuggestedChange}, changeKey last₁ = changeKey last₂ →
      List.Forall₂ (fun a b => changeKey a = changeKey b)
        (mergeRun doc₁ last₁ rest₁) (mergeRun doc₂ last₂ rest₂) := by
  intro rest₁ rest₂ h
  induction h with
  | nil =>
    intro last₁ last₂ hl
    exact List.Forall₂.cons hl List.Forall₂.nil
  | @cons a b t₁ t₂ hab htl ih =>
    intro last₁ last₂ hl
    obtain ⟨_, hf, _, _⟩ := changeKey_fields hab
    obtain ⟨_, _, hlt, _⟩ := changeKey_fields hl
    simp only [mergeRun]
    by_cases hcond : a.«from» ≤ last₁.«to»
    · rw [if_pos hcond, if_pos (by rw [← hf, ← hlt]; exact hcond)]
      exact ih (mergeTwo_key hl hab)
    · rw [if_neg hcond, if_neg (by rw [← hf, ← hlt]; exact hcond)]
      exact List.Forall₂.cons hl (ih hab)

theorem forall₂_key_merge {doc₁ doc₂ : List Char} {l₁ l₂ : List SuggestedChange}
    (h : List.Forall₂ (fun a b => changeKey a = changeKey b) l₁ l₂) :
    List.Forall₂ (fun a b => changeKey a = changeKey b)
      (mergeOverlappingChanges doc₁ l₁) (mergeOverlappingChanges doc₂ l₂) := by
  have hlen := h.length_eq
  unfold mergeOverlappingChanges
  by_cases hl1 : l₁.length ≤ 1
  · rw [if_pos hl1, if_pos (hlen ▸ hl1)]
    exact h
  · rw [if_neg hl1, if_neg (hlen ▸ hl1)]
    have hs := forall₂_key_sort h
    revert hs
    generalize sortByFromAsc l₁ = m₁
    generalize sortByFromAsc l₂ = m₂
    intro hs
    cases hs with
    | nil => exact List.Forall₂.nil
    | cons hab htl => exact forall₂_key_mergeRun htl hab

theorem forall₂_key_map_id {l₁ l₂ : List SuggestedChange}
    (h : List.Forall₂ (fun a b => changeKey a = changeKey b) l₁ l₂) :
    l₁.map (fun c => c.id) = l₂.map (fun c => c.id) := by
  induction h with
  | nil => rfl
  | cons hab htl ih =>
    obtain ⟨hid, _, _, _⟩ := changeKey_fields hab
    simp [hid, ih]

/-- Claim C4, amended: published span ids are deterministic and free of
spurious churn in the following sense: the merged list ids depend only on
the stored changes' ids, positions and statuses (not on the document text,
the original or suggested texts, or timestamps), so recomputing with an
unchanged stored list yields identical ids in the same order.  Fresh ids
from generateId, however, are time- and randomness-derived, not
content-derived (see the counterexample). -/
theorem claim_C4_stable_ids (st₁ st₂ : ProviderState)
    (h : List.Forall₂ (fun a b => changeKey a = changeKey b)
      st₁.suggestedChanges st₂.suggestedChanges) :
    (mergedSuggestedChanges st₁).map (fun c => c.id) =
      (mergedSuggestedChanges st₂).map (fun c => c.id) :=
  forall₂_key_map_id (forall₂_key_merge (forall₂_key_filter h))

theorem claim_C4_stable_ids_witness :
    (mergedSuggestedChanges
        (ProviderState.mk
          [⟨"a", 0, 4, ("abcd").toList, ("X").toList, 0, ChangeStatus.pending⟩,
           ⟨"b", 2, 6, ("cdef").toList, ("Y").toList, 1, ChangeStatus.pending⟩]
          (("abcdef").toList))).map (fun c => c.id) =
      (mergedSuggestedChanges
        (ProviderState.mk
          [⟨"a", 0, 4, [], ("other").toList, 7, ChangeStatus.pending⟩,
           ⟨"b", 2, 6, ("zz").toList, [], 9, ChangeStatus.pending⟩]
          (("zzzzzzzz").toList))).map (fun c => c.id) :=
  claim_C4_stable_ids
    (ProviderState.mk
      [⟨"a", 0, 4, ("abcd").toList, ("X").toList, 0, ChangeStatus.pending⟩,
       ⟨"b", 2, 6, ("cdef").toList, ("Y").toList, 1, ChangeStatus.pending⟩]
      (("abcdef").toList))
    (ProviderState.mk
      [⟨"a", 0, 4, [], ("other").toList, 7, ChangeStatus.pending⟩,
       ⟨"b", 2, 6, ("zz").toList, [], 9, ChangeStatus.pending⟩]
      (("zzzzzzzz").toList))
    (List.Forall₂.cons rfl (List.Forall₂.cons rfl List.Forall₂.nil))

/-- Claim C7, counterexample: the code does not validate ranges, so a stored
pending change with from greater than to is published as-is by the merge
(single-element lists are returned unchanged), violating the from-at-most-to
part of the stated invariant. -/
theorem claim_C7_counterexample :
    ¬ ∀ c ∈ mergedSuggestedChanges
        (ProviderState.mk
          [⟨"a", 5, 3, [], ("x").toList, 0, ChangeStatus.pending⟩]
          (("hello").toList)),
      c.«from» ≤ c.«to» := by
  decide

theorem mergeTwo_from_eq {doc : List Char} {l c : SuggestedChange}
    (h : l.«from» ≤ c.«from») : (mergeTwo doc l c).«from» = l.«from» := by
  simp [mergeTwo]
  exact h

theorem mergeTwo_wf {doc : List Char} {l c : SuggestedChange}
    (hl : 0 ≤ l.«from» ∧ l.«from» ≤ l.«to») (hc : 0 ≤ c.«from» ∧ c.«from» ≤ c.«to») :
    0 ≤ (mergeTwo doc l c).«from» ∧
      (mergeTwo doc l c).«from» ≤ (mergeTwo doc l c).«to» := by
  refine ⟨?_, ?_⟩
  · show (0 : Int) ≤ min l.«from» c.«from»
    exact le_min hl.1 hc.1
  · show min l.«from» c.«from» ≤ max l.«to» c.«to»
    exact le_trans (min_le_left _ _) (le_trans hl.2 (le_max_left _ _))

theorem mergeRun_sep_invariant (doc : List Char) :
    ∀ (rest : List SuggestedChange) (last : SuggestedChange),
      (0 ≤ last.«from» ∧ last.«from» ≤ last.«to») →
      (∀ c ∈ rest, 0 ≤ c.«from» ∧ c.«from» ≤ c.«to») →
      (∀ c ∈ rest, last.«from» ≤ c.«from») →
      List.Pairwise (fun a b => a.«from» ≤ b.«from») rest →
      (∀ c ∈ mergeRun doc last rest, 0 ≤ c.«from» ∧ c.«from» ≤ c.«to») ∧
      List.Chain' (fun a b => a.«to» < b.«from») (mergeRun doc last rest) ∧
      ∃ h t, mergeRun doc last rest = h :: t ∧ h.«from» = last.«from» := by
  intro rest
  induction rest with
  | nil =>
    intro last hwl _ _ _
    refine ⟨?_, ?_, last, [], rfl, rfl⟩
    · intro c hc
      rw [show mergeRun doc last [] = [last] from rfl] at hc
      rcases List.mem_singleton.mp hc with rfl
      exact hwl
    · exact List.chain'_singleton last
  | cons current rest ih =>
    intro last hwl hwr hge hpw
    have hwc := hwr current (by simp)
    have hlc : last.«from» ≤ current.«from» := hge current (by simp)
    rw [List.pairwise_cons] at hpw
    simp only [mergeRun]
    by_cases hcond : current.«from» ≤ last.«to»
    · rw [if_pos hcond]
      have hkey : (mergeTwo doc last current).«from» = last.«from» :=
        mergeTwo_from_eq hlc
      obtain ⟨h1, h2, h, t, heq, hfrom⟩ :=
        ih (mergeTwo doc last current) (mergeTwo_wf hwl hwc)
          (fun c hc => hwr c (List.mem_cons_of_mem _ hc))
          (fun c hc => by rw [hkey]; exact le_trans hlc (hpw.1 c hc))
          hpw.2
      exact ⟨h1, h2, h, t, heq, hfrom.trans hkey⟩
    · rw [if_neg hcond]
      have hsep : last.«to» < current.«from» := not_le.mp hcond
      obtain ⟨h1, h2, h, t, heq, hfrom⟩ :=
        ih current hwc (fun c hc => hwr c (List.mem_cons_of_mem _ hc)) hpw.1 hpw.2
      refine ⟨?_, ?_, last, mergeRun doc current rest, rfl, rfl⟩
      · intro c hc
        rcases List.mem_cons.mp hc with rfl | hc'
        · exact hwl
        · exact h1 c hc'
      · rw [heq, List.chain'_cons]
        exact ⟨hfrom ▸ hsep, heq ▸ h2⟩

theorem chain_sep_pairwise :
    ∀ (l : List SuggestedChange),
      (∀ c ∈ l, c.«from» ≤ c.«to») →
      List.Chain' (fun a b => a.«to» < b.«from») l →
      List.Pairwise (fun a b => a.«to» < b.«from») l := by
  intro l
  induction l with
  | nil => simp
  | cons a t ih =>
    intro hwf hch
    have hpt := ih (fun c hc => hwf c (List.mem_cons_of_mem _ hc)) hch.tail
    rw [List.pairwise_cons]
    refine ⟨?_, hpt⟩
    intro b hb
    cases t with
    | nil => cases hb
    | cons b₀ t' =>
      have h₀ : a.«to» < b₀.«from» := (List.chain'_cons.mp hch).1
      rcases List.mem_cons.mp hb with rfl | hb'
      · exact h₀
      · have hlt : b₀.«to» < b.«from» := (List.pairwise_cons.mp hpt).1 b hb'
        have hb₀wf : b₀.«from» ≤ b₀.«to» := hwf b₀ (by simp)
        exact lt_of_lt_of_le h₀ (le_trans hb₀wf hlt.le)

theorem mergeOverlappingChanges_invariant (doc : List Char)
    (changes : List SuggestedChange)
    (hwf : ∀ c ∈ changes, 0 ≤ c.«from» ∧ c.«from» ≤ c.«to») :
    (∀ c ∈ mergeOverlappingChanges doc changes, 0 ≤ c.«from» ∧ c.«from» ≤ c.«to») ∧
    List.Pairwise (fun a b => a.«to» < b.«from»)
      (mergeOverlappingChanges doc changes) := by
  by_cases hlen : changes.length ≤ 1
  · unfold mergeOverlappingChanges
    rw [if_pos hlen]
    match changes with
    | [] => exact ⟨by simp, List.Pairwise.nil⟩
    | [c] =>
      refine ⟨?_, List.pairwise_singleton _ _⟩
      intro x hx
      rcases List.mem_singleton.mp hx with rfl
      exact hwf x (by simp)
    | a :: b :: t => simp at hlen
  · unfold mergeOverlappingChanges
    rw [if_neg hlen]
    have hperm := List.perm_insertionSort
      (fun a b : SuggestedChange => a.«from» ≤ b.«from») changes
    have hsorted : List.Sorted (fun a b : SuggestedChange => a.«from» ≤ b.«from»)
        (sortByFromAsc changes) := by
      haveI : IsTotal SuggestedChange (fun a b => a.«from» ≤ b.«from») :=
        ⟨fun a b => le_total _ _⟩
      haveI : IsTrans SuggestedChange (fun a b => a.«from» ≤ b.«from») :=
        ⟨fun _ _ _ hab hbc => le_trans hab hbc⟩
      exact List.sorted_insertionSort _ _
    have hwfs : ∀ c ∈ sortByFromAsc changes, 0 ≤ c.«from» ∧ c.«from» ≤ c.«to» :=
      fun c hc => hwf c (hperm.subset hc)
    cases hs : sortByFromAsc changes with
    | nil => exact ⟨by simp, List.Pairwise.nil⟩
    | cons c rest =>
      rw [hs] at hsorted hwfs
      rw [List.sorted_cons] at hsorted
      obtain ⟨hall, hchain, _⟩ :=
        mergeRun_sep_invariant doc rest c (hwfs c (by simp))
          (fun x hx => hwfs x (List.mem_cons_of_mem _ hx))
          hsorted.1 hsorted.2
      exact ⟨hall, chain_sep_pairwise _ (fun x hx => (hall x hx).2) hchain⟩

/-- Claim C7, amended: provided every stored change has a non-negative range
with from at most to (the code itself never validates this), the published
merged list satisfies the invariant: ranges non-negative, from at most to,
and both endpoints monotonically non-decreasing across the ordered list, so
spans never cross. -/
theorem claim_C7_invariant (st : ProviderState)
    (hwf : ∀ c ∈ st.suggestedChanges, 0 ≤ c.«from» ∧ c.«from» ≤ c.«to») :
    (∀ c ∈ mergedSuggestedChanges st, 0 ≤ c.«from» ∧ c.«from» ≤ c.«to») ∧
    List.Pairwise (fun a b => a.«from» ≤ b.«from» ∧ a.«to» ≤ b.«to»)
      (mergedSuggestedChanges st) := by
  have hwfp : ∀ c ∈ st.suggestedChanges.filter
      (fun c => c.status == ChangeStatus.pending), 0 ≤ c.«from» ∧ c.«from» ≤ c.«to» :=
    fun c hc => hwf c (List.mem_filter.mp hc).1
  obtain ⟨h1, h2⟩ :=
    mergeOverlappingChanges_invariant st.originalDocument
      (st.suggestedChanges.filter (fun c => c.status == ChangeStatus.pending)) hwfp
  refine ⟨h1, h2.imp_of_mem ?_⟩
  intro a b ha hb hr
  exact ⟨le_of_lt (lt_of_le_of_lt (h1 a ha).2 hr),
    le_of_lt (lt_of_lt_of_le hr (h1 b hb).2)⟩

theorem claim_C7_invariant_witness :
    (∀ c ∈ mergedSuggestedChanges
        (ProviderState.mk
          [⟨"a", 0, 4, ("abcd").toList, ("X").toList, 0, ChangeStatus.pending⟩,
           ⟨"b", 2, 6, ("cdef").toList, ("Y").toList, 1, ChangeStatus.pending⟩]
          (("abcdef").toList)),
      0 ≤ c.«from» ∧ c.«from» ≤ c.«to») ∧
    List.Pairwise (fun a b => a.«from» ≤ b.«from» ∧ a.«to» ≤ b.«to»)
      (mergedSuggestedChanges
        (ProviderState.mk
          [⟨"a", 0, 4, ("abcd").toList, ("X").toList, 0, ChangeStatus.pending⟩,
           ⟨"b", 2, 6, ("cdef").toList, ("Y").toList, 1, ChangeStatus.pending⟩]
          (("abcdef").toList))) :=
  claim_C7_invariant
    (ProviderState.mk
      [⟨"a", 0, 4, ("abcd").toList, ("X").toList, 0, ChangeStatus.pending⟩,
       ⟨"b", 2, 6, ("cdef").toList, ("Y").toList, 1, ChangeStatus.pending⟩]
      (("abcdef").toList))
    (by decide)
